import Mathlib

/-!
Verification of the signal-processing pipeline in `src/signal_processing.py`
against its natural-language specification.

Signals and scalar parameters are embedded as lists of rationals (the Python
floats are idealised as exact rationals); the waveform synthesizers, which
evaluate `sin`, are embedded over the reals.  Fallible operations (numpy
raises `ValueError` / `TypeError`) return `Except Err`; `Err` names the two
failure classes of the spec's error taxonomy.
-/

namespace SignalProcessing

/-- Failure classes of the pipeline, as named by the spec's error taxonomy.
`invalidConfiguration` models the `ValueError`/`TypeError` numpy raises on a
bad scalar parameter (negative Gaussian scale, negative/zero/non-integer
window); `emptyInput` models the `ValueError` raised by a reduction or a
convolution over a zero-length array. -/
inductive Err
  | invalidConfiguration
  | emptyInput
deriving DecidableEq

/-- Embedding of `np.mean`: sum divided by length.  (On the empty list the
rational convention `x / 0 = 0` applies; every use below is guarded by a
non-emptiness check where the claim needs one.) -/
def npMean (s : List ℚ) : ℚ := s.sum / s.length

/-- Statistics record built by `calculate_statistics` (line 61-67).
`np.std` and the rms are square roots of rationals, hence irrational in
general; the record stores their squares (`varPop` for `std**2`, `msq` for
`rms**2`), which determine them. -/
structure Stats where
  mean : ℚ
  varPop : ℚ
  min : ℚ
  max : ℚ
  msq : ℚ
deriving DecidableEq

/-- Embedding of `calculate_statistics` (line 59-74).  On a zero-length
signal `np.min` raises (`zero-size array to reduction operation minimum`),
which the spec taxonomy calls `EmptyInput`; on a non-empty signal every
entry of the dict is defined and the function returns it.  (The `print`
calls are presentation glue with no effect on the returned record.) -/
def calculate_statistics : List ℚ → Except Err Stats
  | [] => .error .emptyInput
  | x :: xs =>
    .ok { mean := npMean (x :: xs)
          varPop := npMean ((x :: xs).map fun v => (v - npMean (x :: xs)) ^ 2)
          min := xs.foldl Min.min x
          max := xs.foldl Max.max x
          msq := npMean ((x :: xs).map fun v => v ^ 2) }

/-- Embedding of `add_noise` (line 41-45), parametric in the stream
`g : seed → index → unit draw` of standard-normal variates that
`np.random.seed(seed); np.random.normal(...)` produces: the legacy numpy
generator validates `scale ≥ 0` (raising `ValueError`, the taxonomy's
`invalidConfiguration`, before drawing anything) and then returns
`loc + scale * gauss_i` for each element, with the `gauss_i` determined
by the seed alone.  The noise vector `noise_level * g seed i` is added
elementwise to the signal. -/
def add_noise (g : ℕ → ℕ → ℚ) (signal : List ℚ) (noise_level : ℚ)
    (seed : ℕ) : Except Err (List ℚ) :=
  if noise_level < 0 then .error .invalidConfiguration
  else .ok (List.zipWith (· + ·) signal
    ((List.range signal.length).map fun i => noise_level * g seed i))

/-- Result of `calculate_snr`: either a finite decibel value or `np.inf`.
The constructor `db r` carries the power ratio `signal_power / noise_power`;
the decibel value the Python code prints is `10 * log10 r`, determined by
`r` (the logarithm itself is not rational-representable). -/
inductive SnrResult
  | db (powerRatio : ℚ)
  | posInf
deriving DecidableEq

/-- Embedding of `calculate_snr` (line 51-57): mean of squares of each
argument, then the ratio when the noise power is strictly positive and
`np.inf` otherwise.  Total: no error path. -/
def calculate_snr (signal noise : List ℚ) : SnrResult :=
  let signal_power := npMean (signal.map fun x => x ^ 2)
  let noise_power := npMean (noise.map fun x => x ^ 2)
  if 0 < noise_power then .db (signal_power / noise_power) else .posInf

/-- Embedding of `np.linspace(start, stop, num)` with the default
`endpoint=True`: `num` evenly spaced points from `start` to `stop`
inclusive, i.e. step `(stop - start) / (num - 1)` for `num ≥ 2`. -/
def linspace (start stop : ℚ) (num : ℕ) : List ℚ :=
  if num = 0 then []
  else if num = 1 then [start]
  else (List.range num).map fun i : ℕ =>
    start + (stop - start) * (i : ℚ) / ((num : ℚ) - 1)

/-- Embedding of Python `int(x)`: truncation toward zero. -/
def npInt (x : ℚ) : ℤ := if x < 0 then -⌊-x⌋ else ⌊x⌋

/-- Embedding of the time-base construction of `main` (line 90):
`t = np.linspace(0, duration, int(sample_rate * duration))`. -/
def make_time_series (duration sample_rate : ℚ) : List ℚ :=
  linspace 0 duration (npInt (sample_rate * duration)).toNat

/-- Full discrete convolution, as `np.convolve(a, v)` computes it:
`out[n] = Σ_m a[m] * v[n - m]`, of length `len(a) + len(v) - 1`.
Out-of-range accesses contribute `0` (zero padding); the sum ranges over
the indices of `a`, and the guard `m ≤ n` keeps the natural subtraction
`n - m` honest. -/
def convFull (a v : List ℚ) : List ℚ :=
  (List.range (a.length + v.length - 1)).map fun n =>
    ∑ m ∈ Finset.range a.length,
      if m ≤ n then a.getD m 0 * v.getD (n - m) 0 else 0

/-- The `mode='same'` extraction of `np.convolve`: the central
`max(len(a), len(v))` entries of the full convolution, starting at offset
`(min(len(a), len(v)) - 1) / 2`. -/
def convSame (a v : List ℚ) : List ℚ :=
  ((convFull a v).drop ((min a.length v.length - 1) / 2)).take
    (max a.length v.length)

/-- Embedding of `np.ones(window_size)` as called by `apply_filter`: the
shape argument must be a non-negative integer, otherwise numpy raises
(`TypeError` for a non-integer, `ValueError: negative dimensions` for a
negative value) — both classified `invalidConfiguration` by the spec's
taxonomy. -/
def npOnes (w : ℚ) : Except Err (List ℚ) :=
  if w.den ≠ 1 then .error .invalidConfiguration
  else if w < 0 then .error .invalidConfiguration
  else .ok (List.replicate w.num.toNat 1)

/-- Embedding of `np.convolve(a, v, mode='same')`: numpy first raises
`ValueError: a cannot be empty` on an empty signal, then
`ValueError: v cannot be empty` on an empty kernel (which is how a zero
window surfaces), then returns the same-mode convolution. -/
def npConvolveSame (a v : List ℚ) : Except Err (List ℚ) :=
  if a.isEmpty then .error .emptyInput
  else if v.isEmpty then .error .invalidConfiguration
  else .ok (convSame a v)

/-- Embedding of `apply_filter` (line 47-49):
`np.convolve(signal, np.ones(window_size) / window_size, mode='same')`. -/
def apply_filter (signal : List ℚ) (window_size : ℚ) : Except Err (List ℚ) :=
  (npOnes window_size).bind fun ones =>
    npConvolveSame signal (ones.map fun x => x / window_size)

/-- Embedding of `np.sign` on reals: `-1`, `0` or `1` by the sign of the
argument (`np.sign(0) = 0`). -/
noncomputable def npSign (x : ℝ) : ℝ :=
  if x < 0 then -1 else if 0 < x then 1 else 0

/-- Embedding of Python `%` on reals with a positive modulus: the
floor-based modulo, always in `[0, m)` for `m > 0`. -/
noncomputable def npMod (x m : ℝ) : ℝ := x - m * ⌊x / m⌋

/-- Embedding of `generate_sine_wave` (line 24-26). -/
noncomputable def generate_sine_wave (t : List ℝ) (frequency amplitude : ℝ) :
    List ℝ :=
  t.map fun x => amplitude * Real.sin (2 * Real.pi * frequency * x)

/-- Embedding of `generate_square_wave` (line 28-31):
`amplitude * np.sign(np.sin(2π f t))`. -/
noncomputable def generate_square_wave (t : List ℝ) (frequency amplitude : ℝ) :
    List ℝ :=
  t.map fun x => amplitude * npSign (Real.sin (2 * Real.pi * frequency * x))

/-- Embedding of `generate_sawtooth_wave` (line 33-39):
`phase = (2π f t) % (2π); amplitude * (phase / π - 1)`. -/
noncomputable def generate_sawtooth_wave (t : List ℝ) (frequency amplitude : ℝ) :
    List ℝ :=
  t.map fun x =>
    amplitude * (npMod (2 * Real.pi * frequency * x) (2 * Real.pi) / Real.pi - 1)

/-! ### Helper lemmas -/

lemma getD_map_range (f : ℕ → ℚ) {n i : ℕ} (h : i < n) :
    ((List.range n).map f).getD i 0 = f i := by
  rw [List.getD_eq_getElem?_getD, List.getElem?_map, List.getElem?_range h]
  rfl

lemma getD_replicate (w k : ℕ) (c : ℚ) :
    (List.replicate w c).getD k 0 = if k < w then c else 0 := by
  rw [List.getD_eq_getElem?_getD, List.getElem?_replicate]
  by_cases h : k < w <;> simp [h]

lemma map_range_zero_mul (g : ℕ → ℚ) (n : ℕ) :
    ((List.range n).map fun i => (0 : ℚ) * g i) = List.replicate n 0 := by
  induction n with
  | zero => rfl
  | succ k ih =>
    rw [List.range_succ, List.map_append, ih, List.replicate_succ']
    simp

lemma zipWith_add_replicate_zero :
    ∀ s : List ℚ, List.zipWith (· + ·) s (List.replicate s.length 0) = s
  | [] => rfl
  | x :: xs => by
    simp only [List.length_cons, List.replicate_succ, List.zipWith_cons_cons,
      add_zero, zipWith_add_replicate_zero xs]

lemma zipWith_add_sub_cancel :
    ∀ s ns : List ℚ,
      List.zipWith (· - ·) (List.zipWith (· + ·) s ns) s = ns.take s.length
  | [], _ => rfl
  | _ :: _, [] => rfl
  | x :: xs, y :: ys => by
    simp only [List.zipWith_cons_cons, List.length_cons, List.take_succ_cons,
      add_sub_cancel_left, zipWith_add_sub_cancel xs ys]

lemma npMean_sq_nonneg (l : List ℚ) : 0 ≤ npMean (l.map fun x => x ^ 2) := by
  unfold npMean
  apply div_nonneg _ (Nat.cast_nonneg _)
  apply List.sum_nonneg
  intro x hx
  obtain ⟨y, _, rfl⟩ := List.mem_map.1 hx
  positivity

/-! ### Claim theorems -/

/-- C4: `calculate_statistics` succeeds on every non-empty signal and fails
with the `EmptyInput` error on the zero-length signal. -/
theorem calculate_statistics_total :
    (∀ s : List ℚ, s ≠ [] → ∃ st, calculate_statistics s = .ok st) ∧
    calculate_statistics [] = .error .emptyInput := by
  refine ⟨fun s hs => ?_, rfl⟩
  cases s with
  | nil => exact absurd rfl hs
  | cons x xs => exact ⟨_, rfl⟩

/-- Witness for C4 at the concrete signals `[1, 2]` and `[]`. -/
theorem calculate_statistics_total_witness :
    (∃ st, calculate_statistics [1, 2] = .ok st) ∧
    calculate_statistics [] = .error .emptyInput :=
  ⟨calculate_statistics_total.1 [1, 2] (by simp), calculate_statistics_total.2⟩

/-- C8: `add_noise` with `noise_level = 0` returns the input signal exactly,
for every signal, seed, and unit-normal stream (the zero-variance draws are
`0 * g seed i = 0`). -/
theorem add_noise_zero_level (g : ℕ → ℕ → ℚ) (s : List ℚ) (seed : ℕ) :
    add_noise g s 0 seed = .ok s := by
  unfold add_noise
  rw [if_neg (lt_irrefl 0)]
  rw [show ((List.range s.length).map fun i => (0 : ℚ) * g seed i)
      = List.replicate s.length 0 from map_range_zero_mul _ _]
  rw [zipWith_add_replicate_zero]

/-- C7: `add_noise` is deterministic in its seed: with the same stream,
noise level, and seed, two input signals of the same length receive the
identical injected noise vector (output minus input). -/
theorem add_noise_deterministic (g : ℕ → ℕ → ℚ) (lvl : ℚ) (seed : ℕ)
    (s1 s2 : List ℚ) (h : s1.length = s2.length) :
    (add_noise g s1 lvl seed).map (fun o => List.zipWith (· - ·) o s1) =
    (add_noise g s2 lvl seed).map (fun o => List.zipWith (· - ·) o s2) := by
  unfold add_noise
  by_cases hl : lvl < 0
  · rw [if_pos hl, if_pos hl]
    rfl
  · rw [if_neg hl, if_neg hl]
    have htake : ∀ (n : ℕ) (f : ℕ → ℚ),
        ((List.range n).map f).take n = (List.range n).map f :=
      fun n f => List.take_of_length_le (by simp)
    simp only [Except.map, zipWith_add_sub_cancel, htake, h]

/-- Witness for C7: two distinct signals of length two, a nonzero level and
a nontrivial stream, receive the same injected noise vector. -/
theorem add_noise_deterministic_witness :
    (add_noise (fun s i => (s * i : ℚ)) [1, 2] 5 7).map
        (fun o => List.zipWith (· - ·) o [1, 2]) =
    (add_noise (fun s i => (s * i : ℚ)) [3, 4] 5 7).map
        (fun o => List.zipWith (· - ·) o [3, 4]) :=
  add_noise_deterministic (fun s i => (s * i : ℚ)) 5 7 [1, 2] [3, 4] rfl

/-- C3: a negative `noise_level` makes `add_noise` fail with the
`InvalidConfiguration` error, and a negative, zero, or non-integer window
makes `apply_filter` fail with the `InvalidConfiguration` error; in each
case the result is the bare error, so no output array is produced.  (In the
zero-window case the kernel `np.ones(0)/0` is empty and `np.convolve`
rejects it; numpy checks the signal argument first, so that case is stated
for non-empty signals — on an empty signal the emptiness error fires
instead.) -/
theorem eager_validation (g : ℕ → ℕ → ℚ) (s : List ℚ) (lvl : ℚ) (seed : ℕ)
    (hlvl : lvl < 0) :
    add_noise g s lvl seed = .error .invalidConfiguration ∧
    (∀ w : ℚ, w.den ≠ 1 ∨ w < 0 →
      apply_filter s w = .error .invalidConfiguration) ∧
    (s ≠ [] → apply_filter s 0 = .error .invalidConfiguration) := by
  refine ⟨by unfold add_noise; rw [if_pos hlvl], fun w hw => ?_, fun hs => ?_⟩
  · unfold apply_filter npOnes
    by_cases hden : w.den ≠ 1
    · rw [if_pos hden]
      rfl
    · rcases hw with hw | hw
      · exact absurd hw (by simpa using hden)
      · rw [if_neg hden, if_pos hw]
        rfl
  · unfold apply_filter npOnes npConvolveSame
    norm_num [Except.bind, hs]

/-- Witness for C3: a negative noise level, a negative window, and a zero
window each produce the bare `InvalidConfiguration` error on the signal
`[1]`. -/
theorem eager_validation_witness :
    add_noise (fun _ _ => 0) [1] (-1) 0 = .error .invalidConfiguration ∧
    apply_filter [1] (-2) = .error .invalidConfiguration ∧
    apply_filter [1] 0 = .error .invalidConfiguration := by
  have h := eager_validation (fun _ _ => 0) [1] (-1) 0 (by norm_num)
  exact ⟨h.1, h.2.1 (-2) (Or.inr (by norm_num)), h.2.2 (by simp)⟩

lemma linspace_length (a b : ℚ) (n : ℕ) : (linspace a b n).length = n := by
  unfold linspace
  split_ifs with h1 h2
  · simp [h1]
  · simp [h2]
  · simp

lemma linspace_getD (a b : ℚ) {n i : ℕ} (hn : 2 ≤ n) (hi : i < n) :
    (linspace a b n).getD i 0 = a + (b - a) * i / ((n : ℚ) - 1) := by
  unfold linspace
  rw [if_neg (by omega), if_neg (by omega), getD_map_range _ hi]

/-- C2 (amended): for positive duration and sample rate the time series has
`N = floor(sample_rate * duration)` samples, starts at `0`, and is uniformly
spaced with step `duration / (N - 1)` over the closed interval
`[0, duration]`: its last sample equals `duration` (for `N ≥ 2`), because
`np.linspace` includes the endpoint by default. -/
theorem make_time_series_spec (d r : ℚ) (hd : 0 < d) (hr : 0 < r) :
    (make_time_series d r).length = (⌊r * d⌋).toNat ∧
    (make_time_series d r ≠ [] → (make_time_series d r).getD 0 0 = 0) ∧
    (2 ≤ (⌊r * d⌋).toNat →
      (∀ i, i < (⌊r * d⌋).toNat → (make_time_series d r).getD i 0
          = d * i / (((⌊r * d⌋).toNat : ℚ) - 1)) ∧
      (make_time_series d r).getD ((⌊r * d⌋).toNat - 1) 0 = d) := by
  have hnn : ¬ r * d < 0 := not_lt.2 (le_of_lt (mul_pos hr hd))
  have hmts : make_time_series d r = linspace 0 d (⌊r * d⌋).toNat := by
    unfold make_time_series npInt
    rw [if_neg hnn]
  set N := (⌊r * d⌋).toNat with hN
  have hcast : 2 ≤ N → (((N : ℚ)) - 1) ≠ 0 := by
    intro h2
    have : (2 : ℚ) ≤ (N : ℚ) := by exact_mod_cast h2
    intro h
    linarith
  refine ⟨by rw [hmts]; exact linspace_length 0 d N, fun hne => ?_,
    fun h2 => ⟨fun i hi => ?_, ?_⟩⟩
  · rw [hmts] at hne ⊢
    have hpos : 1 ≤ N := by
      by_contra h0
      have : N = 0 := by omega
      rw [this] at hne
      exact hne (by unfold linspace; simp)
    rcases eq_or_lt_of_le hpos with h1 | h1
    · rw [← h1]
      unfold linspace
      norm_num
    · rw [linspace_getD 0 d h1 (by omega)]
      simp
  · rw [hmts, linspace_getD 0 d h2 hi]
    ring
  · rw [hmts, linspace_getD 0 d h2 (by omega)]
    rw [show (((N - 1 : ℕ)) : ℚ) = (N : ℚ) - 1 by
      rw [Nat.cast_sub (by omega)]; norm_num]
    rw [sub_zero, zero_add, mul_div_assoc, div_self (hcast h2), mul_one]

/-- C2 counterexample: with `duration = 2` and `sample_rate = 2` the time
series is `[0, 2/3, 4/3, 2]`; its last sample equals the duration, so the
samples do not all lie strictly below `duration` as the claim's half-open
interval `[0, duration)` requires. -/
theorem make_time_series_counterexample :
    make_time_series 2 2 = [0, 2/3, 4/3, 2] ∧
    ¬ (∀ x ∈ make_time_series 2 2, x < 2) := by
  have h : make_time_series 2 2 = [0, 2/3, 4/3, 2] := by
    norm_num [make_time_series, linspace, npInt, List.range_succ,
      show ((4 : ℤ).toNat = 4) from rfl]
  refine ⟨h, fun hall => ?_⟩
  exact absurd (hall 2 (by rw [h]; simp)) (lt_irrefl 2)

/-- Witness for C2 at `duration = 2`, `sample_rate = 2`: four samples, the
last equal to the duration. -/
theorem make_time_series_spec_witness :
    (make_time_series 2 2).length = (⌊(2 : ℚ) * 2⌋).toNat ∧
    (make_time_series 2 2).getD ((⌊(2 : ℚ) * 2⌋).toNat - 1) 0 = 2 := by
  have h := make_time_series_spec 2 2 (by norm_num) (by norm_num)
  have h4 : (⌊(2 : ℚ) * 2⌋).toNat = 4 := by
    rw [show ⌊(2 : ℚ) * 2⌋ = 4 by norm_num]
    rfl
  exact ⟨h.1, (h.2.2 (by rw [h4]; norm_num)).2⟩

/-- C6: for non-empty equal-length signals, `calculate_snr` returns the
decibel value determined by the power ratio (constructor `db`, carrying
`signal_power / noise_power`, whose decibel reading is `10·log10` of it)
whenever the mean squared noise is strictly positive, and returns `np.inf`
exactly when the mean squared noise is zero — in particular on an all-zero
noise vector — and never fails (the function is total, with no error
path). -/
theorem calculate_snr_spec (s n : List ℚ) (hn : n ≠ [])
    (hlen : s.length = n.length) :
    (0 < npMean (n.map fun x => x ^ 2) →
      calculate_snr s n
        = .db (npMean (s.map fun x => x ^ 2) / npMean (n.map fun x => x ^ 2))) ∧
    (calculate_snr s n = .posInf ↔ npMean (n.map fun x => x ^ 2) = 0) ∧
    (∀ k, n = List.replicate k 0 → calculate_snr s n = .posInf) := by
  simp only [calculate_snr]
  refine ⟨fun hpos => by rw [if_pos hpos], ⟨fun hinf => ?_, fun h0 => ?_⟩,
    fun k hk => ?_⟩
  · by_cases hpos : 0 < npMean (n.map fun x => x ^ 2)
    · rw [if_pos hpos] at hinf
      exact SnrResult.noConfusion hinf
    · exact le_antisymm (not_lt.1 hpos) (npMean_sq_nonneg n)
  · rw [if_neg (by rw [h0]; exact lt_irrefl 0)]
  · have h0 : npMean ((List.replicate k (0 : ℚ)).map fun x => x ^ 2) = 0 := by
      simp [npMean]
    rw [hk, if_neg (by rw [h0]; exact lt_irrefl 0)]

/-- Witness for C6: reference `[1]` with the all-zero noise vector `[0]`
yields `np.inf`. -/
theorem calculate_snr_spec_witness : calculate_snr [1] [0] = .posInf :=
  (calculate_snr_spec [1] [0] (by simp) rfl).2.2 1 rfl

lemma length_convFull (a v : List ℚ) :
    (convFull a v).length = a.length + v.length - 1 := by
  simp [convFull]

lemma getD_convFull_replicate (s : List ℚ) (w : ℕ) (c : ℚ) (n : ℕ)
    (hn : n < s.length + w - 1) :
    (convFull s (List.replicate w c)).getD n 0
      = (∑ j ∈ Finset.Icc (n + 1 - w) n, s.getD j 0) * c := by
  unfold convFull
  rw [getD_map_range _ (by simpa using hn)]
  have hterm : ∀ m : ℕ,
      (if m ≤ n then s.getD m 0 * (List.replicate w c).getD (n - m) 0 else 0)
        = (if n + 1 - w ≤ m ∧ m ≤ n then s.getD m 0 * c else 0) := by
    intro m
    rw [getD_replicate]
    rcases le_or_lt m n with h1 | h1
    · rcases lt_or_le (n - m) w with h2 | h2
      · rw [if_pos h1, if_pos h2, if_pos ⟨by omega, h1⟩]
      · rw [if_pos h1, if_neg (by omega), mul_zero, if_neg (by omega)]
    · rw [if_neg (by omega), if_neg (by omega)]
  calc (∑ m ∈ Finset.range s.length,
          if m ≤ n then s.getD m 0 * (List.replicate w c).getD (n - m) 0 else 0)
      = ∑ m ∈ Finset.range s.length,
          if n + 1 - w ≤ m ∧ m ≤ n then s.getD m 0 * c else 0 :=
        Finset.sum_congr rfl fun m _ => hterm m
    _ = ∑ m ∈ (Finset.range s.length).filter
          (fun m => n + 1 - w ≤ m ∧ m ≤ n), s.getD m 0 * c :=
        (Finset.sum_filter _ _).symm
    _ = ∑ m ∈ Finset.Icc (n + 1 - w) n, s.getD m 0 * c := by
        apply Finset.sum_subset
        · intro x hx
          simp only [Finset.mem_filter, Finset.mem_range] at hx
          exact Finset.mem_Icc.2 ⟨hx.2.1, hx.2.2⟩
        · intro x hx hnx
          simp only [Finset.mem_Icc] at hx
          simp only [Finset.mem_filter, Finset.mem_range, not_and] at hnx
          have hxs : s.length ≤ x := by
            by_contra hlt
            exact hnx (by omega) hx.1 hx.2
          rw [List.getD_eq_default _ _ hxs, zero_mul]
    _ = (∑ j ∈ Finset.Icc (n + 1 - w) n, s.getD j 0) * c :=
        (Finset.sum_mul _ _ _).symm

lemma length_convSame (a v : List ℚ) (ha : a ≠ []) (hv : v ≠ []) :
    (convSame a v).length = max a.length v.length := by
  have h1 : 1 ≤ a.length := List.length_pos.2 ha
  have h2 : 1 ≤ v.length := List.length_pos.2 hv
  simp only [convSame, List.length_take, List.length_drop, length_convFull]
  omega

lemma getD_convSame (a v : List ℚ) {i : ℕ} (hi : i < max a.length v.length) :
    (convSame a v).getD i 0
      = (convFull a v).getD ((min a.length v.length - 1) / 2 + i) 0 := by
  unfold convSame
  rw [List.getD_eq_getElem?_getD, List.getD_eq_getElem?_getD]
  rw [List.getElem?_take, if_pos hi, List.getElem?_drop]

/-- Reduction of `apply_filter` at a natural window `w ≥ 1` on a non-empty
signal: the validation passes and the result is the same-mode convolution
with the uniform kernel `replicate w (1/w)`. -/
lemma apply_filter_natCast (s : List ℚ) (w : ℕ) (hw : 1 ≤ w) (hs : s ≠ []) :
    apply_filter s (w : ℚ)
      = .ok (convSame s (List.replicate w ((w : ℚ)⁻¹))) := by
  unfold apply_filter npOnes npConvolveSame
  rw [if_neg (by simp), if_neg (not_lt.2 (by positivity))]
  rw [show ((w : ℚ)).num.toNat = w by simp]
  simp only [Except.bind, List.map_replicate, one_div]
  rw [if_neg (by simp [List.isEmpty_iff, hs]),
    if_neg (by simp [List.isEmpty_iff]; omega)]

/-- C1 (amended): for `1 ≤ w ≤ len(signal)`, `apply_filter` returns a
signal of the same length in which `output[i]` is the sum of the input
samples in the centered window `[i - w/2, i + (w-1)/2]` clipped to the
array bounds, divided by the full window length `w`: `np.convolve` in
`'same'` mode zero-pads at the edges, so boundary samples are a sum of the
available points divided by `w`, not the mean of the fewer available
points (and an even window extends one sample less to the right than to
the left). -/
theorem apply_filter_windowed (s : List ℚ) (w : ℕ) (hw : 1 ≤ w)
    (hwN : w ≤ s.length) :
    ∃ out, apply_filter s (w : ℚ) = .ok out ∧ out.length = s.length ∧
      ∀ i, i < s.length → out.getD i 0 =
        (∑ j ∈ Finset.Icc (i - w / 2) (min (i + (w - 1) / 2) (s.length - 1)),
          s.getD j 0) / (w : ℚ) := by
  have hs : s ≠ [] := by
    intro h
    rw [h] at hwN
    simp at hwN
    omega
  have hN : 1 ≤ s.length := List.length_pos.2 hs
  have hrep : (List.replicate w ((w : ℚ)⁻¹)).length = w := by simp
  have hmax : max s.length (List.replicate w ((w : ℚ)⁻¹)).length = s.length := by
    rw [hrep]
    exact Nat.max_eq_left hwN
  refine ⟨_, apply_filter_natCast s w hw hs, ?_, fun i hi => ?_⟩
  · rw [length_convSame s _ hs (by rw [← List.length_pos, hrep]; omega), hmax]
  · rw [getD_convSame s _ (by rw [hmax]; exact hi)]
    rw [hrep, Nat.min_eq_right hwN]
    have hdiv := Nat.div_le_self (w - 1) 2
    rw [getD_convFull_replicate s w _ ((w - 1) / 2 + i) (by omega)]
    rw [div_eq_mul_inv]
    have hicc : Finset.Icc ((w - 1) / 2 + i + 1 - w) ((w - 1) / 2 + i)
        = Finset.Icc (i - w / 2) (i + (w - 1) / 2) := by
      ext x
      simp only [Finset.mem_Icc]
      omega
    rw [hicc]
    have hsub : Finset.Icc (i - w / 2) (min (i + (w - 1) / 2) (s.length - 1))
        ⊆ Finset.Icc (i - w / 2) (i + (w - 1) / 2) :=
      Finset.Icc_subset_Icc le_rfl (min_le_left _ _)
    have hzero : ∀ x ∈ Finset.Icc (i - w / 2) (i + (w - 1) / 2),
        x ∉ Finset.Icc (i - w / 2) (min (i + (w - 1) / 2) (s.length - 1)) →
          s.getD x 0 = 0 := by
      intro x hx hnx
      simp only [Finset.mem_Icc] at hx
      simp only [Finset.mem_Icc, not_and] at hnx
      have hxs : s.length ≤ x := by
        by_contra hlt
        push_neg at hlt
        exact hnx hx.1 (by omega)
      exact List.getD_eq_default _ _ hxs
    rw [← Finset.sum_subset hsub hzero]

/-- C1 counterexample: on the signal `[1, 1, 1]` with window `3`, the code
returns `2/3` at index `0` — the two available boundary samples summed and
divided by the full window length `3` — whereas the mean of the available
points `input[0..1]`, as the claim states it, is `(1 + 1) / 2 = 1`. -/
theorem apply_filter_boundary_counterexample :
    apply_filter ([1, 1, 1] : List ℚ) 3 = .ok [2/3, 1, 2/3] ∧
    ¬ ((2 : ℚ)/3 = (1 + 1) / 2) := by
  constructor
  · norm_num [apply_filter, npOnes, npConvolveSame, convSame, convFull,
      List.range_succ, Finset.sum_range_succ, Except.bind, Int.toNat_ofNat,
      List.replicate, List.getD]
  · norm_num

/-- Witness for C1 at signal `[1, 1, 1]`, window `3`, index `0`: the
formula gives `(s[0] + s[1]) / 3 = 2/3`. -/
theorem apply_filter_windowed_witness :
    ∃ out, apply_filter ([1, 1, 1] : List ℚ) ((3 : ℕ) : ℚ) = .ok out ∧
      out.length = 3 ∧ out.getD 0 0 =
        (∑ j ∈ Finset.Icc 0 1, ([1, 1, 1] : List ℚ).getD j 0) / ((3 : ℕ) : ℚ) := by
  obtain ⟨out, h1, h2, h3⟩ :=
    apply_filter_windowed ([1, 1, 1] : List ℚ) 3 (by norm_num) (by norm_num)
  exact ⟨out, h1, h2, h3 0 (by norm_num)⟩

/-- C9 (amended): `apply_filter` with window `1` is the identity on every
non-empty signal. -/
theorem apply_filter_one (s : List ℚ) (hs : s ≠ []) :
    apply_filter s 1 = .ok s := by
  obtain ⟨out, h1, h2, h3⟩ :=
    apply_filter_windowed s 1 le_rfl (List.length_pos.2 hs)
  rw [Nat.cast_one] at h1
  rw [h1]
  congr 1
  apply List.ext_getElem h2
  intro i hi1 hi2
  rw [← List.getD_eq_getElem out 0 hi1, ← List.getD_eq_getElem s 0 hi2]
  rw [h3 i (by omega)]
  rw [show i - 1 / 2 = i by omega, show i + (1 - 1) / 2 = i by omega]
  rw [Nat.min_eq_left (by omega), Finset.Icc_self, Finset.sum_singleton]
  norm_num

/-- C9 counterexample: on the empty signal `np.convolve` raises
(`a cannot be empty`), so `apply_filter([], 1)` is an error, not the
identity. -/
theorem apply_filter_one_counterexample :
    apply_filter ([] : List ℚ) 1 ≠ .ok [] := by
  intro h
  rw [show apply_filter ([] : List ℚ) 1 = .error .emptyInput from rfl] at h
  exact Except.noConfusion h

/-- Witness for C9 at the signal `[3, 4]`. -/
theorem apply_filter_one_witness : apply_filter ([3, 4] : List ℚ) 1 = .ok [3, 4] :=
  apply_filter_one [3, 4] (by simp)

/-- C5 (amended): the three waveform synthesizers and the noise stage
preserve the length of their input, while the filtered output has length
`max(len(signal), window)` — equal to the signal length exactly when the
window does not exceed it (as in the shipped configuration, window 20 on
2000 samples), but strictly longer when the window exceeds the signal
length, because `np.convolve(… , mode='same')` returns `max(M, N)`
samples. -/
theorem stage_lengths (ts : List ℝ) (f a : ℝ) (g : ℕ → ℕ → ℚ) (s : List ℚ)
    (lvl : ℚ) (seed : ℕ) (w : ℕ) (hlvl : 0 ≤ lvl) (hw : 1 ≤ w) (hs : s ≠ []) :
    (generate_sine_wave ts f a).length = ts.length ∧
    (generate_square_wave ts f a).length = ts.length ∧
    (generate_sawtooth_wave ts f a).length = ts.length ∧
    (∃ o, add_noise g s lvl seed = .ok o ∧ o.length = s.length) ∧
    (∃ o, apply_filter s (w : ℚ) = .ok o ∧ o.length = max s.length w) := by
  refine ⟨by simp [generate_sine_wave], by simp [generate_square_wave],
    by simp [generate_sawtooth_wave], ?_, ?_⟩
  · unfold add_noise
    rw [if_neg (not_lt.2 hlvl)]
    exact ⟨_, rfl, by simp⟩
  · refine ⟨_, apply_filter_natCast s w hw hs, ?_⟩
    rw [length_convSame s _ hs (by rw [← List.length_pos]; simp; omega)]
    simp

/-- C5 counterexample: filtering the length-2 signal `[1, 2]` with window
`3` yields a length-3 output, so the filter output does not have the length
of its input for every window `w ≥ 1`. -/
theorem stage_lengths_counterexample :
    apply_filter ([1, 2] : List ℚ) 3 = .ok [1/3, 1, 1] ∧
    ¬ (([1/3, 1, 1] : List ℚ).length = ([1, 2] : List ℚ).length) := by
  constructor
  · norm_num [apply_filter, npOnes, npConvolveSame, convSame, convFull,
      List.range_succ, Finset.sum_range_succ, Except.bind, Int.toNat_ofNat,
      List.replicate, List.getD]
  · simp

/-- Witness for C5 at `ts = [0]`, `s = [1, 2]`, level `0`, window `2`. -/
theorem stage_lengths_witness :
    (generate_sine_wave [0] 1 1).length = ([0] : List ℝ).length ∧
    (generate_square_wave [0] 1 1).length = ([0] : List ℝ).length ∧
    (generate_sawtooth_wave [0] 1 1).length = ([0] : List ℝ).length ∧
    (∃ o, add_noise (fun _ _ => 1) [1, 2] 0 0 = .ok o ∧
      o.length = ([1, 2] : List ℚ).length) ∧
    (∃ o, apply_filter [1, 2] ((2 : ℕ) : ℚ) = .ok o ∧
      o.length = max ([1, 2] : List ℚ).length 2) :=
  stage_lengths [0] 1 1 (fun _ _ => 1) [1, 2] 0 0 2
    le_rfl (by norm_num) (by simp)

/-- C10: every sample of the square wave lies in `{-amplitude, 0,
amplitude}`, and any sample at which `sin(2π f t)` vanishes is mapped to
exactly `0` (the `np.sign(0) = 0` policy). -/
theorem generate_square_wave_range (ts : List ℝ) (f amp : ℝ)
    (hf : 0 < f) (ha : 0 < amp) :
    (∀ y ∈ generate_square_wave ts f amp, y = -amp ∨ y = 0 ∨ y = amp) ∧
    (∀ i, i < ts.length →
      Real.sin (2 * Real.pi * f * ts.getD i 0) = 0 →
      (generate_square_wave ts f amp).getD i 0 = 0) := by
  have hmap : ∀ (fn : ℝ → ℝ) (l : List ℝ) (i : ℕ), i < l.length →
      (l.map fn).getD i 0 = fn (l.getD i 0) := by
    intro fn l i h
    rw [List.getD_eq_getElem _ _ (by simpa using h), List.getD_eq_getElem _ _ h,
      List.getElem_map]
  constructor
  · intro y hy
    obtain ⟨x, _, rfl⟩ := List.mem_map.1 hy
    unfold npSign
    split_ifs
    · left
      rw [mul_neg_one]
    · right; right
      rw [mul_one]
    · right; left
      rw [mul_zero]
  · intro i hi hsin
    unfold generate_square_wave
    rw [hmap _ ts i hi, hsin]
    unfold npSign
    rw [if_neg (lt_irrefl 0), if_neg (lt_irrefl 0), mul_zero]

/-- Witness for C10 at `t = 0`, frequency `1`, amplitude `1`:
`sin(2π·1·0) = 0` and the square wave sample is exactly `0`. -/
theorem generate_square_wave_range_witness :
    (0 : ℝ) < 1 ∧ (generate_square_wave [0] 1 1).getD 0 0 = 0 := by
  refine ⟨one_pos, ?_⟩
  apply (generate_square_wave_range [0] 1 1 one_pos one_pos).2 0 (by simp)
  rw [show ([0] : List ℝ).getD 0 0 = 0 from rfl, mul_zero, Real.sin_zero]

end SignalProcessing
